import Mathlib

/-!
A shallow embedding of the BMRB-Data-Processing-Tool pipeline
(`NMR_Proj/scripts/main.py`, `NMR_Proj/scripts/process_nmr_data.py`,
`NMR_Proj/scripts/parser.py`).

Text lines are modelled as `List Char`; each Python text-processing
primitive used by the scripts (str.strip, str.split, str.startswith,
substring containment, the specific regular expressions, int()/float()
conversion of the numeric tokens that occur) is given an executable
Lean counterpart.  Numeric values are modelled exactly as rationals:
the scripts only ever produce floats by converting decimal literals
(optionally signed, with an optional decimal exponent), so the exact
decimal value is the faithful abstraction; non-finite float literals
("inf"/"nan") and digit-group underscores are outside the model, as are
non-ASCII digits.  Filesystem and network effects are modelled by
explicit state passing.
-/

/-- A line of text, as a list of characters (no trailing newline). -/
abbrev Line := List Char

/-- Python `str.strip()`: remove leading and trailing whitespace. -/
def trimL (l : Line) : Line :=
  ((l.dropWhile Char.isWhitespace).reverse.dropWhile Char.isWhitespace).reverse

/-- Value of a list of decimal digits, most significant first. -/
def digitsToNat (l : Line) : ℕ :=
  l.foldl (fun n c => 10 * n + (c.toNat - '0'.toNat)) 0

/-- A nonempty all-digit token, or failure. -/
def digitsVal (l : Line) : Option ℕ :=
  if l ≠ [] ∧ l.all Char.isDigit then some (digitsToNat l) else none

/-- Python `int(token)` on a whitespace-free token: optional sign then
decimal digits. -/
def pyInt (t : Line) : Option ℤ :=
  match t with
  | '+' :: rest => (digitsVal rest).map Int.ofNat
  | '-' :: rest => (digitsVal rest).map (fun n => -(n : ℤ))
  | _ => (digitsVal t).map Int.ofNat

/-- A digit or a decimal point (the character class `[\d.]` of the
shift-value regular expressions). -/
def isNumChar (c : Char) : Bool := c.isDigit || c == '.'

/-- Python `float(g)` on a string of digits and dots: at most one dot,
at least one digit, exact decimal value. -/
def decValue (l : Line) : Option ℚ :=
  if ¬ l.all isNumChar then none
  else if l.count '.' == 0 then
    if l == [] then none else some (digitsToNat l : ℚ)
  else if l.count '.' == 1 then
    let ip := l.takeWhile (fun c => c ≠ '.')
    let fp := (l.dropWhile (fun c => c ≠ '.')).tail
    if ip == [] && fp == [] then none
    else some ((digitsToNat ip : ℚ) + (digitsToNat fp : ℚ) / (10 : ℚ) ^ fp.length)
  else none

/-- Mantissa-with-exponent part of Python `float(token)`. -/
def pyFloatMag (t : Line) : Option ℚ :=
  let mant := t.takeWhile (fun c => c ≠ 'e' ∧ c ≠ 'E')
  match t.dropWhile (fun c => c ≠ 'e' ∧ c ≠ 'E') with
  | [] => decValue mant
  | _ :: ex =>
    match decValue mant, pyInt ex with
    | some m, some e => some (m * (10 : ℚ) ^ e)
    | _, _ => none

/-- Python `float(token)` on a whitespace-free token: optional sign,
decimal mantissa, optional `e`/`E` exponent.  Exact rational value. -/
def pyFloat (t : Line) : Option ℚ :=
  match t with
  | '+' :: rest => pyFloatMag rest
  | '-' :: rest => (pyFloatMag rest).map Neg.neg
  | _ => pyFloatMag t

/-- Python `str.split()` with no separator: split on whitespace runs,
dropping empty pieces.  `acc` holds the current token reversed. -/
def splitWsAux : Line → Line → List Line
  | [], acc => if acc.isEmpty then [] else [acc.reverse]
  | c :: rest, acc =>
    if c.isWhitespace then
      if acc.isEmpty then splitWsAux rest [] else acc.reverse :: splitWsAux rest []
    else splitWsAux rest (c :: acc)

/-- Python `line.split()`. -/
def splitWs (l : Line) : List Line := splitWsAux l []

/-- Python `pat in line`: substring containment. -/
def containsSub (pat : Line) : Line → Bool
  | [] => pat.isEmpty
  | c :: rest => pat.isPrefixOf (c :: rest) || containsSub pat rest

/-- `re.search(pat ++ "([\d.]+)", s)`: find the first position where the
literal pattern `pat` is followed by at least one digit-or-dot
character, and return the maximal such run (the captured group). -/
def searchCapture (pat : Line) : Line → Option Line
  | [] => none
  | c :: rest =>
    if pat.isPrefixOf (c :: rest) then
      let g := ((c :: rest).drop pat.length).takeWhile isNumChar
      if g.isEmpty then searchCapture pat rest else some g
    else searchCapture pat rest

namespace MainScript

/-- The record built per residue by `main.py parse_chemical_shifts`
(the Python dict with keys Residue_Type, Residue_ID, C_Shift,
CA_Shift, CB_Shift). -/
structure ChemicalShiftRecord where
  residueType : Char
  residueId : ℤ
  cShift : Option ℚ
  caShift : Option ℚ
  cbShift : Option ℚ
deriving DecidableEq, Repr

/-- The literal text of the shift-values marker. -/
def aveMark : Line := "Ave C Shift Values>>".data

/-- The three shift patterns of `main.py`. -/
def cPat : Line := "C :: ".data

def caPat : Line := "CA :: ".data

def cbPat : Line := "CB :: ".data

/-- `re.match(r"^[A-Z]\d+", line)` succeeds: first char A-Z, second a
digit. -/
def isHeaderLine (t : Line) : Bool :=
  match t with
  | c1 :: c2 :: _ => c1.isUpper && c2.isDigit
  | _ => false

/-- The fresh residue record opened by a header line: type is the
leading letter (`re.match(r"^[A-Z]", line)`), id is the first digit run
(`re.search(r"\d+", line)`, which starts at index 1 on a header line). -/
def headerRec (t : Line) : ChemicalShiftRecord :=
  { residueType := t.headD 'A'
  , residueId := (digitsToNat ((t.drop 1).takeWhile Char.isDigit) : ℤ)
  , cShift := none, caShift := none, cbShift := none }

/-- Outcome of one `re.search(r"X :: ([\d.]+)", line)` followed by
`float(group)`: pattern absent, value found, or a captured group on
which `float` raises (which aborts the whole parse). -/
inductive Found where
  | absent : Found
  | value : ℚ → Found
  | bad : Found
deriving DecidableEq

/-- Search one shift pattern and convert its captured group. -/
def findShift (pat t : Line) : Found :=
  match searchCapture pat t with
  | none => .absent
  | some g =>
    match decValue g with
    | some v => .value v
    | none => .bad

def Found.isBad : Found → Bool
  | .bad => true
  | _ => false

def Found.isVal : Found → Bool
  | .value _ => true
  | _ => false

def appC (r : ChemicalShiftRecord) : Found → ChemicalShiftRecord
  | .value v => { r with cShift := some v }
  | _ => r

def appCA (r : ChemicalShiftRecord) : Found → ChemicalShiftRecord
  | .value v => { r with caShift := some v }
  | _ => r

def appCB (r : ChemicalShiftRecord) : Found → ChemicalShiftRecord
  | .value v => { r with cbShift := some v }
  | _ => r

/-- The line loop of `main.py parse_chemical_shifts`, carrying the
`current_residue` state and returning the records emitted from this
point on.  A `float` failure raises in Python; the surrounding `try`
then returns the list accumulated so far, which here is the empty
continuation. -/
def summGo : Option ChemicalShiftRecord → List Line → List ChemicalShiftRecord
  | _, [] => []
  | cur, l :: rest =>
    let t := trimL l
    if isHeaderLine t then summGo (some (headerRec t)) rest
    else if aveMark.isPrefixOf t then
      match cur with
      | none => summGo none rest
      | some r =>
        let fC := findShift cPat t
        if fC.isBad then [] else
        let r1 := appC r fC
        let fCA := findShift caPat t
        if fCA.isBad then [] else
        let r2 := appCA r1 fCA
        let fCB := findShift cbPat t
        if fCB.isBad then [] else
        appCB r2 fCB :: summGo none rest
    else summGo cur rest

/-- `main.py parse_chemical_shifts`, summary ("Ave C Shift Values")
format: the file's lines to the list of emitted records. -/
def parse_chemical_shifts (lines : List Line) : List ChemicalShiftRecord :=
  summGo none lines

/-- A shift-values line is valid when at least one of the three
patterns captures a group and every captured group is a number
`float` accepts. -/
def validAveLine (t : Line) : Bool :=
  (!(findShift cPat t).isBad && !(findShift caPat t).isBad && !(findShift cbPat t).isBad)
  && ((findShift cPat t).isVal || (findShift caPat t).isVal || (findShift cbPat t).isVal)

/-- A valid summary-format file: every shift-values line is valid. -/
def validSummary (lines : List Line) : Bool :=
  lines.all (fun l => !(aveMark.isPrefixOf (trimL l)) || validAveLine (trimL l))

end MainScript

namespace ProcessNmr

/-- Atom names are whitespace-free tokens. -/
abbrev AtomKey := Line

/-- The nested dict `shifts : {residue_number: {atom_name: shift_value}}`
of `process_nmr_data.py parse_chemical_shifts`, as an association list
with unique keys (insertion order kept, as in a Python dict). -/
abbrev ShiftMap := List (ℤ × List (AtomKey × ℚ))

/-- The block marker `"_Atom_chem_shift."`. -/
def shiftMarker : Line := "_Atom_chem_shift.".data

/-- `inner[a] = v` on an atom dict: overwrite an existing binding or
append a new one. -/
def innerSet (inner : List (AtomKey × ℚ)) (a : AtomKey) (v : ℚ) : List (AtomKey × ℚ) :=
  if inner.any (fun q => q.1 == a) then
    inner.map (fun q => if q.1 == a then (q.1, v) else q)
  else inner ++ [(a, v)]

/-- The dict update performed per accepted data line:
`if r not in shifts: shifts[r] = {}` then `shifts[r][a] = v`. -/
def insertShift (m : ShiftMap) (r : ℤ) (a : AtomKey) (v : ℚ) : ShiftMap :=
  if m.any (fun p => p.1 == r) then
    m.map (fun p => if p.1 == r then (p.1, innerSet p.2 a v) else p)
  else m ++ [(r, [(a, v)])]

/-- `inner.get(a, None)`. -/
def innerLookup (inner : List (AtomKey × ℚ)) (a : AtomKey) : Option ℚ :=
  (inner.find? (fun q => q.1 == a)).map (fun q => q.2)

/-- `shifts.get(r, {})`. -/
def shiftsLookup (m : ShiftMap) (r : ℤ) : List (AtomKey × ℚ) :=
  ((m.find? (fun p => p.1 == r)).map (fun p => p.2)).getD []

/-- `shifts.get(r, {}).get(a, None)`. -/
def lookupAtom (m : ShiftMap) (r : ℤ) (a : AtomKey) : Option ℚ :=
  innerLookup (shiftsLookup m r) a

/-- The `(residue_number, atom_name, shift_value)` triple a data line
would store when the parser is inside the shift block, or `none` when
the line is skipped (marker line, blank or comment line, fewer than 4
whitespace fields, or an `int`/`float` conversion failure). -/
def writesKey (l : Line) : Option (ℤ × AtomKey × ℚ) :=
  if containsSub shiftMarker l then none
  else if (trimL l).isEmpty || (trimL l).headD ' ' == '#' then none
  else
    match splitWs l with
    | _ :: p1 :: p2 :: p3 :: _ =>
      match pyInt p1, pyFloat p3 with
      | some r, some v => some (r, p2, v)
      | _, _ => none
    | _ => none

/-- One iteration of the line loop of
`process_nmr_data.py parse_chemical_shifts`, on the
`(in_shift_block, shifts)` state. -/
def stepTab (st : Bool × ShiftMap) (l : Line) : Bool × ShiftMap :=
  if containsSub shiftMarker l then (true, st.2)
  else if st.1 then
    if (trimL l).isEmpty || (trimL l).headD ' ' == '#' then (true, st.2)
    else
      match splitWs l with
      | _ :: p1 :: p2 :: p3 :: _ =>
        match pyInt p1, pyFloat p3 with
        | some r, some v => (true, insertShift st.2 r p2 v)
        | _, _ => (true, st.2)
      | _ => (true, st.2)
  else (false, st.2)

/-- `process_nmr_data.py parse_chemical_shifts`, tabular
(`_Atom_chem_shift.`) format: fold the line loop over the file and
return the residue-to-atom-shift mapping. -/
def parse_chemical_shifts (lines : List Line) : ShiftMap :=
  (lines.foldl stepTab (false, [])).2

end ProcessNmr

/-!  Structure parser (`parse_secondary_structures`, identical in
`main.py` and `process_nmr_data.py`). -/

/-- The helix/sheet working map of pass 1, as a finite-support function
(a Python dict keyed by residue number). -/
abbrev SSMap := ℤ → Option String

/-- `secondary_structures[res_id] = code`. -/
def ssSet (m : SSMap) (k : ℤ) (v : String) : SSMap :=
  fun x => if x = k then some v else m x

/-- Python `range(a, b + 1)` over integers. -/
def intRange (a b : ℤ) : List ℤ :=
  (List.range (b + 1 - a).toNat).map (fun (i : ℕ) => a + (i : ℤ))

/-- `for res_id in range(start, end + 1): m[res_id] = code`. -/
def assignRange (m : SSMap) (a b : ℤ) (v : String) : SSMap :=
  (intRange a b).foldl (fun m' k => ssSet m' k v) m

/-- Python `line[a:b].strip()` then `int(...)`:
slicing clips at the end of the line. -/
def parseSliceInt (l : Line) (a b : ℕ) : Option ℤ :=
  pyInt (trimL ((l.drop a).take (b - a)))

/-- One iteration of pass 1 of `parse_secondary_structures`: a HELIX
line extracts columns [21:25) and [33:37), a SHEET line [22:26) and
[33:37); a failed `int` conversion raises, aborting the parse
(`none`). -/
def stepSS (m : SSMap) (l : Line) : Option SSMap :=
  if "HELIX".data.isPrefixOf l then
    match parseSliceInt l 21 25, parseSliceInt l 33 37 with
    | some a, some b => some (assignRange m a b "H")
    | _, _ => none
  else if "SHEET".data.isPrefixOf l then
    match parseSliceInt l 22 26, parseSliceInt l 33 37 with
    | some a, some b => some (assignRange m a b "E")
    | _, _ => none
  else some m

/-- Pass 1 of `parse_secondary_structures` over the whole file. -/
def buildSS (lines : List Line) : Option SSMap :=
  lines.foldlM stepSS (fun _ => none)

/-- Modelled from the spec: the per-residue view produced by the
external `Bio.PDB` structural iteration (chains of the first model);
`resId` is `residue.id[1]`, `resName` is `residue.resname`, and
`isStdAA` is the `Polypeptide.is_aa(residue, standard=True)` check.
The library itself is an external collaborator, so pass 2 is
parameterized by this list. -/
structure PdbResidue where
  resId : ℤ
  resName : Line
  isStdAA : Bool
deriving DecidableEq, Repr

/-- The record emitted per standard amino-acid residue. -/
structure SecondaryStructureRecord where
  residueId : ℤ
  residueType : Line
  secStruct : String
deriving DecidableEq, Repr

/-- `parse_secondary_structures` (both scripts): pass 1 builds the
fixed-column helix/sheet map (an exception yields the empty result);
pass 2 emits one record per standard amino-acid residue, with the
looked-up code defaulting to "C". -/
def parse_secondary_structures (lines : List Line) (residues : List PdbResidue) :
    List SecondaryStructureRecord :=
  match buildSS lines with
  | none => []
  | some m =>
    residues.filterMap (fun r =>
      if r.isStdAA then
        some ⟨r.resId, trimL r.resName, (m r.resId).getD "C"⟩
      else none)

/-!  The join (`combine_data` in both scripts). -/

/-- The combined output row (the dict with keys Residue_ID,
Residue_Type, C_Shift, CA_Shift, CB_Shift, Secondary_Structure). -/
structure CombinedRecord where
  residueId : ℤ
  residueType : Line
  cShift : Option ℚ
  caShift : Option ℚ
  cbShift : Option ℚ
  secStruct : String
deriving DecidableEq, Repr

namespace MainScript

/-- The lookup into
`chem_shifts_dict = {entry["Residue_ID"]: entry for entry in chem_shifts}`:
in a dict comprehension the last entry with a given key wins. -/
def dictLookup (shifts : List ChemicalShiftRecord) (r : ℤ) :
    Option ChemicalShiftRecord :=
  shifts.reverse.find? (fun e => e.residueId == r)

/-- The row built for one structure record by `main.py combine_data`:
`shifts = chem_shifts_dict.get(res_id, {})` then `.get` of each field. -/
def combineRow (shifts : List ChemicalShiftRecord) (res : SecondaryStructureRecord) :
    CombinedRecord :=
  match dictLookup shifts res.residueId with
  | none =>
    { residueId := res.residueId, residueType := res.residueType
    , cShift := none, caShift := none, cbShift := none
    , secStruct := res.secStruct }
  | some e =>
    { residueId := res.residueId, residueType := res.residueType
    , cShift := e.cShift, caShift := e.caShift, cbShift := e.cbShift
    , secStruct := res.secStruct }

/-- The join loop of `main.py combine_data` over already-parsed inputs
(the parsing of the two files happens at the function's boundary). -/
def combine_data (shifts : List ChemicalShiftRecord)
    (structures : List SecondaryStructureRecord) : List CombinedRecord :=
  structures.map (combineRow shifts)

end MainScript

namespace ProcessNmr

/-- The atom keys looked up by `process_nmr_data.py combine_data`. -/
def caKey : AtomKey := "CA".data

def cbKey : AtomKey := "CB".data

def cKey : AtomKey := "C".data

/-- The join loop of `process_nmr_data.py combine_data`:
`chem_shifts.get(res_id, {}).get("CA"/"CB"/"C", None)` per structure
record. -/
def combine_data (shifts : ShiftMap)
    (structures : List SecondaryStructureRecord) : List CombinedRecord :=
  structures.map (fun res =>
    { residueId := res.residueId, residueType := res.residueType
    , cShift := lookupAtom shifts res.residueId cKey
    , caShift := lookupAtom shifts res.residueId caKey
    , cbShift := lookupAtom shifts res.residueId cbKey
    , secStruct := res.secStruct })

end ProcessNmr

/-!  Retriever and batch driver (`main.py`). -/

/-- The filesystem state: the set of cache-file paths that exist. -/
structure FsState where
  files : List String
deriving DecidableEq, Repr

/-- The outcome the network would give for one HTTP GET: a 200
response, a non-200 status, or a raised transport exception. -/
inductive FetchOutcome where
  | ok : FetchOutcome
  | notFound : FetchOutcome
  | transportError : FetchOutcome
deriving DecidableEq

/-- The failure taxonomy: non-200 response vs. transport exception. -/
inductive FetchFailure where
  | notFound : FetchFailure
  | transportError : FetchFailure
deriving DecidableEq

/-- `os.path.join(PDB_DIR, f"{pdb_id}.pdb")`. -/
def pdbPath (pdb_id : String) : String := "data/pdb_files/" ++ pdb_id ++ ".pdb"

/-- `os.path.join(BMRB_DIR, f"{entry_id}.str")`. -/
def bmrbPath (entry_id : String) : String := "data/bmrb_files/" ++ entry_id ++ ".str"

/-- `main.py download_pdb`: if the cache file exists, return its path
with no network call; otherwise issue one GET (`fetch` gives its
outcome), writing the file on 200 and returning `none` on a non-200
status or an exception.  The `Bool` records whether the network was
called. -/
def download_pdb (fetch : String → FetchOutcome) (st : FsState) (pdb_id : String) :
    Option String × FsState × Bool :=
  let output_path := pdbPath pdb_id
  if st.files.contains output_path then (some output_path, st, false)
  else
    match fetch pdb_id with
    | .ok => (some output_path, ⟨output_path :: st.files⟩, true)
    | .notFound => (none, st, true)
    | .transportError => (none, st, true)

/-- `main.py download_bmrb`: always issues one GET; a 200 writes the
file and returns the path, a non-200 logs "not found" and an exception
logs an error, both returning `None` in Python — the `Except` value
records which failure was reported. -/
def download_bmrb (outcome : FetchOutcome) (st : FsState) (entry_id : String) :
    Except FetchFailure String × FsState :=
  match outcome with
  | .ok => (.ok (bmrbPath entry_id), ⟨bmrbPath entry_id :: st.files⟩)
  | .notFound => (.error .notFound, st)
  | .transportError => (.error .transportError, st)

/-- One batch entry of `bmrb_pdb_list`. -/
structure Entry where
  bmrbId : String
  pdbId : String

/-- The loop of `main.py main`: per entry, fetch the BMRB file, fetch
the PDB file, and skip the entry (adding no records) when either
failed, else append that entry's combined records.  `combineFiles`
stands for `combine_data` applied to the two cached files.  Returns the
accumulated records, the final filesystem state, and the number of
BMRB fetch calls made. -/
def mainLoop (bmrbFetch : String → FetchOutcome) (pdbFetch : String → FetchOutcome)
    (combineFiles : String → String → List CombinedRecord) :
    List Entry → FsState → List CombinedRecord × FsState × ℕ
  | [], st => ([], st, 0)
  | e :: rest, st =>
    let b := download_bmrb (bmrbFetch e.bmrbId) st e.bmrbId
    let p := download_pdb pdbFetch b.2 e.pdbId
    match b.1, p.1 with
    | .ok bp, some pp =>
      let r := mainLoop bmrbFetch pdbFetch combineFiles rest p.2.1
      (combineFiles bp pp ++ r.1, r.2.1, r.2.2 + 1)
    | _, _ =>
      let r := mainLoop bmrbFetch pdbFetch combineFiles rest p.2.1
      (r.1, r.2.1, r.2.2 + 1)

/-- The range-and-code view of one pass-1 line: a HELIX line with both
fixed-column integers, a SHEET line likewise, or nothing. -/
def ssSpan (l : Line) : Option (ℤ × ℤ × String) :=
  if "HELIX".data.isPrefixOf l then
    match parseSliceInt l 21 25, parseSliceInt l 33 37 with
    | some a, some b => some (a, b, "H")
    | _, _ => none
  else if "SHEET".data.isPrefixOf l then
    match parseSliceInt l 22 26, parseSliceInt l 33 37 with
    | some a, some b => some (a, b, "E")
    | _, _ => none
  else none

/-- A pass-1 line reassigns residue `id` when its inclusive range
contains `id`. -/
def covers (l : Line) (id : ℤ) : Prop :=
  ∃ a b c, ssSpan l = some (a, b, c) ∧ a ≤ id ∧ id ≤ b

/-!  Helper lemmas about the join. -/

theorem MainScript.combineRow_residueId (shifts : List MainScript.ChemicalShiftRecord)
    (s : SecondaryStructureRecord) :
    (MainScript.combineRow shifts s).residueId = s.residueId := by
  unfold MainScript.combineRow; split <;> rfl

theorem MainScript.combineRow_of_lookup_none (shifts : List MainScript.ChemicalShiftRecord)
    (s : SecondaryStructureRecord) (h : MainScript.dictLookup shifts s.residueId = none) :
    MainScript.combineRow shifts s =
      ⟨s.residueId, s.residueType, none, none, none, s.secStruct⟩ := by
  unfold MainScript.combineRow; rw [h]

theorem MainScript.combineRow_of_lookup_some (shifts : List MainScript.ChemicalShiftRecord)
    (s : SecondaryStructureRecord) (e : MainScript.ChemicalShiftRecord)
    (h : MainScript.dictLookup shifts s.residueId = some e) :
    MainScript.combineRow shifts s =
      ⟨s.residueId, s.residueType, e.cShift, e.caShift, e.cbShift, s.secStruct⟩ := by
  unfold MainScript.combineRow; rw [h]

/-- C4: for every shift mapping and every structure list of length N,
both `combine_data` variants return exactly N combined records, one per
structure record, in the input's order; an empty structure list yields
an empty result, and shift fields are null when no shift record matches
the residue id. -/
theorem combine_data_shape (shifts : List MainScript.ChemicalShiftRecord)
    (tshifts : ProcessNmr.ShiftMap) (structures : List SecondaryStructureRecord) :
    (MainScript.combine_data shifts structures).length = structures.length
  ∧ (ProcessNmr.combine_data tshifts structures).length = structures.length
  ∧ (MainScript.combine_data shifts structures).map CombinedRecord.residueId
      = structures.map SecondaryStructureRecord.residueId
  ∧ (ProcessNmr.combine_data tshifts structures).map CombinedRecord.residueId
      = structures.map SecondaryStructureRecord.residueId
  ∧ MainScript.combine_data shifts [] = []
  ∧ ProcessNmr.combine_data tshifts [] = []
  ∧ (∀ row ∈ MainScript.combine_data shifts structures,
       MainScript.dictLookup shifts row.residueId = none →
       row.cShift = none ∧ row.caShift = none ∧ row.cbShift = none)
  ∧ (∀ row ∈ ProcessNmr.combine_data tshifts structures,
       ProcessNmr.shiftsLookup tshifts row.residueId = [] →
       row.cShift = none ∧ row.caShift = none ∧ row.cbShift = none) := by
  refine ⟨?_, ?_, ?_, ?_, rfl, rfl, ?_, ?_⟩
  · simp [MainScript.combine_data]
  · simp [ProcessNmr.combine_data]
  · rw [MainScript.combine_data, List.map_map]
    exact List.map_congr_left fun s _ => MainScript.combineRow_residueId shifts s
  · rw [ProcessNmr.combine_data, List.map_map]
    exact List.map_congr_left fun s _ => rfl
  · intro row hrow hnone
    obtain ⟨s, _, rfl⟩ := List.mem_map.mp hrow
    rw [MainScript.combineRow_residueId] at hnone
    rw [MainScript.combineRow_of_lookup_none shifts s hnone]
    exact ⟨rfl, rfl, rfl⟩
  · intro row hrow hempty
    obtain ⟨s, _, rfl⟩ := List.mem_map.mp hrow
    simp only at hempty
    simp [ProcessNmr.lookupAtom, hempty, ProcessNmr.innerLookup]

/-- C4 witness: a one-element structure list with an empty shift map
yields one row with all shift fields null. -/
theorem combine_data_shape_witness :
    (MainScript.combine_data [] [⟨0, "MET".data, "C"⟩]).length = 1
  ∧ ((MainScript.combineRow [] ⟨0, "MET".data, "C"⟩).cShift = none
     ∧ (MainScript.combineRow [] ⟨0, "MET".data, "C"⟩).caShift = none
     ∧ (MainScript.combineRow [] ⟨0, "MET".data, "C"⟩).cbShift = none) := by
  have h := combine_data_shape [] [] [⟨0, "MET".data, "C"⟩]
  refine ⟨h.1, h.2.2.2.2.2.2.1 _ (List.mem_singleton.mpr rfl) rfl⟩

/-- C5: every residue id in the output of `main.py combine_data` is
the residue id of some input structure record; unmatched shift entries
contribute no output row. -/
theorem combine_data_no_invented_residues
    (shifts : List MainScript.ChemicalShiftRecord)
    (structures : List SecondaryStructureRecord) :
    (∀ row ∈ MainScript.combine_data shifts structures,
       ∃ s ∈ structures, row.residueId = s.residueId)
  ∧ (MainScript.combine_data shifts structures).map CombinedRecord.residueId
      = structures.map SecondaryStructureRecord.residueId := by
  constructor
  · intro row hrow
    obtain ⟨s, hs, rfl⟩ := List.mem_map.mp hrow
    exact ⟨s, hs, MainScript.combineRow_residueId shifts s⟩
  · rw [MainScript.combine_data, List.map_map]
    exact List.map_congr_left fun s _ => MainScript.combineRow_residueId shifts s

/-- C5 witness: a shift record for residue 99 with a single structure
record for residue 1 produces only residue 1 in the output. -/
theorem combine_data_no_invented_residues_witness :
    ∃ s ∈ [(⟨1, "LYS".data, "C"⟩ : SecondaryStructureRecord)],
      (MainScript.combineRow [⟨'A', 99, some 1, none, none⟩] ⟨1, "LYS".data, "C"⟩).residueId
        = s.residueId := by
  exact (combine_data_no_invented_residues [⟨'A', 99, some 1, none, none⟩]
    [⟨1, "LYS".data, "C"⟩]).1 _ (List.mem_singleton.mpr rfl)

/-- C8: with duplicate residue ids in the parsed shift list, the dict
comprehension keeps only the last record, and every joined row for
that residue id takes its shift values from it. -/
theorem combine_data_last_duplicate_wins
    (l₁ l₂ : List MainScript.ChemicalShiftRecord) (e : MainScript.ChemicalShiftRecord)
    (structures : List SecondaryStructureRecord)
    (hlast : ∀ e' ∈ l₂, e'.residueId ≠ e.residueId) :
    MainScript.dictLookup (l₁ ++ e :: l₂) e.residueId = some e
  ∧ ∀ row ∈ MainScript.combine_data (l₁ ++ e :: l₂) structures,
      row.residueId = e.residueId →
      row.cShift = e.cShift ∧ row.caShift = e.caShift ∧ row.cbShift = e.cbShift := by
  have hfind : MainScript.dictLookup (l₁ ++ e :: l₂) e.residueId = some e := by
    unfold MainScript.dictLookup
    rw [List.reverse_append, List.reverse_cons, List.append_assoc, List.find?_append]
    have h2 : l₂.reverse.find? (fun x => x.residueId == e.residueId) = none := by
      rw [List.find?_eq_none]
      intro x hx
      simp only [beq_iff_eq]
      exact hlast x (List.mem_reverse.mp hx)
    rw [h2]
    simp [List.find?_append, List.find?_cons]
  refine ⟨hfind, ?_⟩
  intro row hrow hid
  obtain ⟨s, _, rfl⟩ := List.mem_map.mp hrow
  rw [MainScript.combineRow_residueId] at hid
  rw [MainScript.combineRow_of_lookup_some (l₁ ++ e :: l₂) s e (by rw [hid]; exact hfind)]
  exact ⟨rfl, rfl, rfl⟩

/-- C8 witness: two shift records for residue 1; the joined row takes
the second record's values. -/
theorem combine_data_last_duplicate_wins_witness :
    MainScript.dictLookup [⟨'A', 1, some 10, none, none⟩, ⟨'A', 1, some 20, none, none⟩] 1
      = some ⟨'A', 1, some 20, none, none⟩
  ∧ (MainScript.combineRow
       [⟨'A', 1, some 10, none, none⟩, ⟨'A', 1, some 20, none, none⟩]
       ⟨1, "LYS".data, "C"⟩).cShift = some 20 := by
  have h := combine_data_last_duplicate_wins [⟨'A', 1, some 10, none, none⟩] []
    (⟨'A', 1, some 20, none, none⟩) [⟨1, "LYS".data, "C"⟩] (by intro e' he'; cases he')
  refine ⟨h.1, (h.2 _ (List.mem_singleton.mpr rfl) ?_).1⟩
  exact MainScript.combineRow_residueId _ _

/-- C6: when the cache file exists, `download_pdb` returns its path
with no network call and unchanged state; and two successive calls
return equal paths. -/
theorem download_pdb_cached_idempotent (fetch : String → FetchOutcome)
    (st : FsState) (pdb_id : String) :
    (st.files.contains (pdbPath pdb_id) = true →
       download_pdb fetch st pdb_id = (some (pdbPath pdb_id), st, false))
  ∧ (download_pdb fetch (download_pdb fetch st pdb_id).2.1 pdb_id).1
      = (download_pdb fetch st pdb_id).1 := by
  constructor
  · intro h
    unfold download_pdb
    rw [if_pos h]
  · by_cases h : pdbPath pdb_id ∈ st.files
    · simp [download_pdb, h]
    · rcases hf : fetch pdb_id with _ | _ | _ <;>
        simp [download_pdb, h, hf]

/-- C6 witness: a state already holding `data/pdb_files/1boc.pdb`. -/
theorem download_pdb_cached_idempotent_witness :
    download_pdb (fun _ => .transportError) ⟨["data/pdb_files/1boc.pdb"]⟩ "1boc"
      = (some "data/pdb_files/1boc.pdb", ⟨["data/pdb_files/1boc.pdb"]⟩, false)
  ∧ (download_pdb (fun _ => .transportError)
       (download_pdb (fun _ => .transportError) ⟨["data/pdb_files/1boc.pdb"]⟩ "1boc").2.1
       "1boc").1
      = (download_pdb (fun _ => .transportError) ⟨["data/pdb_files/1boc.pdb"]⟩ "1boc").1 := by
  have h := download_pdb_cached_idempotent (fun _ => .transportError)
    ⟨["data/pdb_files/1boc.pdb"]⟩ "1boc"
  exact ⟨h.1 (by rfl), h.2⟩

/-- C7: a non-200 response yields the NotFound failure, a transport
exception yields the TransportError failure, and on either failure the
batch loop adds no record for the entry, makes exactly one BMRB fetch
call for it, and continues with the remaining entries. -/
theorem fetch_failure_skips_entry (bmrbFetch pdbFetch : String → FetchOutcome)
    (combineFiles : String → String → List CombinedRecord) (st : FsState)
    (e : Entry) (rest : List Entry) :
    (∀ id st', download_bmrb .notFound st' id = (.error .notFound, st'))
  ∧ (∀ id st', download_bmrb .transportError st' id = (.error .transportError, st'))
  ∧ (bmrbFetch e.bmrbId = .notFound ∨ bmrbFetch e.bmrbId = .transportError →
       (mainLoop bmrbFetch pdbFetch combineFiles (e :: rest) st).1
         = (mainLoop bmrbFetch pdbFetch combineFiles rest
             (download_pdb pdbFetch st e.pdbId).2.1).1
     ∧ (mainLoop bmrbFetch pdbFetch combineFiles (e :: rest) st).2.2
         = (mainLoop bmrbFetch pdbFetch combineFiles rest
             (download_pdb pdbFetch st e.pdbId).2.1).2.2 + 1) := by
  refine ⟨fun _ _ => rfl, fun _ _ => rfl, ?_⟩
  rintro (h | h) <;> exact ⟨by simp [mainLoop, download_bmrb, h], by simp [mainLoop, download_bmrb, h]⟩

/-- C7 witness: a batch of one entry whose BMRB fetch returns a
non-200 status accumulates no records. -/
theorem fetch_failure_skips_entry_witness :
    (mainLoop (fun _ => .notFound) (fun _ => .ok) (fun _ _ => [])
       [⟨"99999999", "1xyz"⟩] ⟨[]⟩).1
      = (mainLoop (fun _ => .notFound) (fun _ => .ok) (fun _ _ => []) []
          (download_pdb (fun _ => .ok) ⟨[]⟩ "1xyz").2.1).1 := by
  exact ((fetch_failure_skips_entry (fun _ => .notFound) (fun _ => .ok) (fun _ _ => [])
    ⟨[]⟩ ⟨"99999999", "1xyz"⟩ []).2.2 (Or.inl rfl)).1

/-- C10: a shift-values line encountered while no residue block is
open produces no record: the parse of the remaining lines is
unchanged. -/
theorem orphan_shift_line_no_record (l : Line) (rest : List Line)
    (h : MainScript.aveMark.isPrefixOf (trimL l) = true) :
    MainScript.parse_chemical_shifts (l :: rest) = MainScript.parse_chemical_shifts rest := by
  obtain ⟨t, ht⟩ := List.isPrefixOf_iff_prefix.mp h
  have hhead : MainScript.isHeaderLine (trimL l) = false := by
    rw [← ht]; rfl
  simp [MainScript.parse_chemical_shifts, MainScript.summGo, hhead, h]

/-- C10 witness: a file whose first line is an orphan shift-values
line. -/
theorem orphan_shift_line_no_record_witness :
    MainScript.parse_chemical_shifts ["Ave C Shift Values>> C :: 1.5".data]
      = MainScript.parse_chemical_shifts [] := by
  exact orphan_shift_line_no_record "Ave C Shift Values>> C :: 1.5".data [] (by rfl)

/-- Inside the shift block, one tabular step either stores the line's
`(residue, atom, value)` triple or leaves the mapping unchanged. -/
theorem ProcessNmr.stepTab_true (m : ProcessNmr.ShiftMap) (l : Line) :
    ProcessNmr.stepTab (true, m) l
      = (true, match ProcessNmr.writesKey l with
          | none => m
          | some (r, a, v) => ProcessNmr.insertShift m r a v) := by
  by_cases hc : containsSub ProcessNmr.shiftMarker l = true
  · simp [ProcessNmr.stepTab, ProcessNmr.writesKey, hc]
  · have hc' : containsSub ProcessNmr.shiftMarker l = false := by simpa using hc
    by_cases hp : trimL l = [] ∨ (List.head? (trimL l)).getD ' ' = '#'
    · simp [ProcessNmr.stepTab, ProcessNmr.writesKey, hc', hp]
    · rcases hs : splitWs l with _ | ⟨p0, _ | ⟨p1, _ | ⟨p2, _ | ⟨p3, ps⟩⟩⟩⟩ <;>
        simp [ProcessNmr.stepTab, ProcessNmr.writesKey, hc', hp, hs]
      rcases hi : pyInt p1 with _ | r <;> rcases hv : pyFloat p3 with _ | v <;> simp

/-- C9: a malformed data line inside the shift block (fewer than four
whitespace fields, or a failing `int`/`float` conversion) leaves the
shifts mapping exactly as it was. -/
theorem tabular_malformed_line_preserves_map (m : ProcessNmr.ShiftMap) (l : Line)
    (hmark : containsSub ProcessNmr.shiftMarker l = false)
    (hdata : ((trimL l).isEmpty || ((trimL l).headD ' ' == '#')) = false)
    (hbad : match splitWs l with
            | _ :: p1 :: _ :: p3 :: _ => pyInt p1 = none ∨ pyFloat p3 = none
            | _ => True) :
    ProcessNmr.stepTab (true, m) l = (true, m) := by
  rw [ProcessNmr.stepTab_true]
  have hp : ¬(trimL l = [] ∨ (trimL l).headD ' ' = '#') := by
    simpa [not_or] using hdata
  have hw : ProcessNmr.writesKey l = none := by
    unfold ProcessNmr.writesKey
    rcases hs : splitWs l with _ | ⟨p0, _ | ⟨p1, _ | ⟨p2, _ | ⟨p3, ps⟩⟩⟩⟩ <;>
      simp [hmark, hp, hs]
    rw [hs] at hbad
    simp only at hbad
    rcases hbad with hb | hb <;> simp [hb]
  rw [hw]

/-- C9 witness: the line `1 x CA 5.0` has a non-integer residue field
and is skipped without touching an existing entry. -/
theorem tabular_malformed_line_preserves_map_witness :
    ProcessNmr.stepTab (true, [(7, [(ProcessNmr.caKey, 5)])]) "1 x CA 5.0".data
      = (true, [(7, [(ProcessNmr.caKey, 5)])]) := by
  exact tabular_malformed_line_preserves_map [(7, [(ProcessNmr.caKey, 5)])]
    "1 x CA 5.0".data (by rfl) (by rfl) (by exact Or.inl rfl)

/-!  Association-list lemmas for the nested shift dictionary. -/

theorem findKey_map_keyfix {α β : Type} [BEq α] (l : List (α × β)) (k : α)
    (f : α × β → α × β) (hf : ∀ q, (f q).1 = q.1) :
    List.find? (fun q => q.1 == k) (l.map f) = (List.find? (fun q => q.1 == k) l).map f := by
  have hcong : ((fun q : α × β => q.1 == k) ∘ f) = (fun q : α × β => q.1 == k) := by
    funext q
    simp [Function.comp, hf q]
  rw [List.find?_map, hcong]

theorem findKey_exists {α β : Type} [BEq α] (l : List (α × β)) (k : α)
    (h : l.any (fun q => q.1 == k) = true) :
    ∃ q₀, List.find? (fun q => q.1 == k) l = some q₀ ∧ (q₀.1 == k) = true := by
  rcases hf : List.find? (fun q => q.1 == k) l with _ | q₀
  · obtain ⟨x, hx, hpx⟩ := List.any_eq_true.mp h
    exact absurd hpx (List.find?_eq_none.mp hf x hx)
  · exact ⟨q₀, hf, @List.find?_some _ (fun q => q.1 == k) q₀ l hf⟩

theorem findKey_none {α β : Type} [BEq α] (l : List (α × β)) (k : α)
    (h : l.any (fun q => q.1 == k) = false) :
    List.find? (fun q => q.1 == k) l = none :=
  List.find?_eq_none.mpr fun x hx => List.any_eq_false.mp h x hx

theorem ProcessNmr.innerLookup_innerSet_self (inner : List (ProcessNmr.AtomKey × ℚ))
    (a : ProcessNmr.AtomKey) (v : ℚ) :
    ProcessNmr.innerLookup (ProcessNmr.innerSet inner a v) a = some v := by
  unfold ProcessNmr.innerSet ProcessNmr.innerLookup
  by_cases hany : inner.any (fun q => q.1 == a) = true
  · rw [if_pos hany, findKey_map_keyfix _ _ _
      (fun q => by by_cases hq : (q.1 == a) = true <;> simp [hq])]
    obtain ⟨q₀, hf, hk⟩ := findKey_exists inner a hany
    have hk' : q₀.1 = a := by simpa using hk
    rw [hf]
    simp [hk']
  · have h0 : inner.any (fun q => q.1 == a) = false := Bool.eq_false_iff.mpr hany
    rw [if_neg hany, List.find?_append, findKey_none inner a h0]
    simp

theorem ProcessNmr.innerLookup_innerSet_other (inner : List (ProcessNmr.AtomKey × ℚ))
    (a' : ProcessNmr.AtomKey) (v : ℚ) (a : ProcessNmr.AtomKey) (hne : a' ≠ a) :
    ProcessNmr.innerLookup (ProcessNmr.innerSet inner a' v) a
      = ProcessNmr.innerLookup inner a := by
  unfold ProcessNmr.innerSet ProcessNmr.innerLookup
  by_cases hany : inner.any (fun q => q.1 == a') = true
  · rw [if_pos hany, findKey_map_keyfix _ _ _
      (fun q => by by_cases hq : (q.1 == a') = true <;> simp [hq])]
    rcases hf : List.find? (fun q => q.1 == a) inner with _ | q₀
    · rw [hf]
      rfl
    · have hk : (q₀.1 == a) = true := @List.find?_some _ (fun q => q.1 == a) q₀ inner hf
      have hk' : q₀.1 = a := by simpa using hk
      rw [hf]
      simp [Function.comp, hk', Ne.symm hne]
  · rw [if_neg hany, List.find?_append]
    have h1 : List.find? (fun q => q.1 == a) [(a', v)] = none := by
      simp [List.find?_cons, hne]
    rw [h1]
    simp

theorem ProcessNmr.shiftsLookup_insertShift_self (m : ProcessNmr.ShiftMap)
    (r : ℤ) (a : ProcessNmr.AtomKey) (v : ℚ) :
    ProcessNmr.shiftsLookup (ProcessNmr.insertShift m r a v) r
      = ProcessNmr.innerSet (ProcessNmr.shiftsLookup m r) a v := by
  unfold ProcessNmr.insertShift ProcessNmr.shiftsLookup
  by_cases hany : m.any (fun p => p.1 == r) = true
  · rw [if_pos hany, findKey_map_keyfix _ _ _
      (fun p => by by_cases hp : (p.1 == r) = true <;> simp [hp])]
    obtain ⟨p₀, hf, hk⟩ := findKey_exists m r hany
    have hk' : p₀.1 = r := by simpa using hk
    rw [hf]
    simp [hk']
  · have h0 : m.any (fun p => p.1 == r) = false := Bool.eq_false_iff.mpr hany
    rw [if_neg hany, List.find?_append, findKey_none m r h0]
    simp [ProcessNmr.innerSet]

theorem ProcessNmr.shiftsLookup_insertShift_other (m : ProcessNmr.ShiftMap)
    (r' : ℤ) (a : ProcessNmr.AtomKey) (v : ℚ) (r : ℤ) (hne : r' ≠ r) :
    ProcessNmr.shiftsLookup (ProcessNmr.insertShift m r' a v) r
      = ProcessNmr.shiftsLookup m r := by
  unfold ProcessNmr.insertShift ProcessNmr.shiftsLookup
  by_cases hany : m.any (fun p => p.1 == r') = true
  · rw [if_pos hany, findKey_map_keyfix _ _ _
      (fun p => by by_cases hp : (p.1 == r') = true <;> simp [hp])]
    rcases hf : List.find? (fun p => p.1 == r) m with _ | p₀
    · rw [hf]
      rfl
    · have hk : (p₀.1 == r) = true := @List.find?_some _ (fun p => p.1 == r) p₀ m hf
      have hk' : p₀.1 = r := by simpa using hk
      rw [hf]
      simp [Function.comp, hk', Ne.symm hne]
  · rw [if_neg hany, List.find?_append]
    have h1 : List.find? (fun p => p.1 == r) [(r', [(a, v)])] = none := by
      simp [List.find?_cons, hne]
    rw [h1]
    simp

theorem ProcessNmr.lookupAtom_insertShift_self (m : ProcessNmr.ShiftMap)
    (r : ℤ) (a : ProcessNmr.AtomKey) (v : ℚ) :
    ProcessNmr.lookupAtom (ProcessNmr.insertShift m r a v) r a = some v := by
  unfold ProcessNmr.lookupAtom
  rw [ProcessNmr.shiftsLookup_insertShift_self, ProcessNmr.innerLookup_innerSet_self]

theorem ProcessNmr.lookupAtom_insertShift_other (m : ProcessNmr.ShiftMap)
    (r' : ℤ) (a' : ProcessNmr.AtomKey) (v : ℚ) (r : ℤ) (a : ProcessNmr.AtomKey)
    (hne : ¬(r' = r ∧ a' = a)) :
    ProcessNmr.lookupAtom (ProcessNmr.insertShift m r' a' v) r a
      = ProcessNmr.lookupAtom m r a := by
  unfold ProcessNmr.lookupAtom
  by_cases hr : r' = r
  · subst hr
    have ha : a' ≠ a := fun h => hne ⟨rfl, h⟩
    rw [ProcessNmr.shiftsLookup_insertShift_self,
      ProcessNmr.innerLookup_innerSet_other _ _ _ _ ha]
  · rw [ProcessNmr.shiftsLookup_insertShift_other _ _ _ _ _ hr]

/-!  Fold lemmas for the tabular parser. -/

theorem ProcessNmr.foldTab_fst (post : List Line) (m : ProcessNmr.ShiftMap) :
    (post.foldl ProcessNmr.stepTab (true, m)).1 = true := by
  induction post generalizing m with
  | nil => rfl
  | cons l rest ih =>
    rw [List.foldl_cons, ProcessNmr.stepTab_true]
    exact ih _

theorem ProcessNmr.foldTab_preserve (post : List Line) (r : ℤ) (a : ProcessNmr.AtomKey)
    (h : ∀ l ∈ post, ∀ v', ProcessNmr.writesKey l ≠ some (r, a, v')) :
    ∀ m : ProcessNmr.ShiftMap,
      ProcessNmr.lookupAtom ((post.foldl ProcessNmr.stepTab (true, m)).2) r a
        = ProcessNmr.lookupAtom m r a := by
  induction post with
  | nil => intro m; rfl
  | cons l rest ih =>
    intro m
    rw [List.foldl_cons, ProcessNmr.stepTab_true]
    rcases hw : ProcessNmr.writesKey l with _ | ⟨r', a', v'⟩
    · exact ih (fun l' hl' => h l' (List.mem_cons_of_mem l hl')) m
    · rw [ih (fun l' hl' => h l' (List.mem_cons_of_mem l hl'))]
      refine ProcessNmr.lookupAtom_insertShift_other m r' a' v' r a ?_
      rintro ⟨rfl, rfl⟩
      exact h l (List.mem_cons_self l rest) v' hw

theorem ProcessNmr.foldTab_before_marker (pre : List Line)
    (h : ∀ l ∈ pre, containsSub ProcessNmr.shiftMarker l = false)
    (m : ProcessNmr.ShiftMap) :
    pre.foldl ProcessNmr.stepTab (false, m) = (false, m) := by
  induction pre with
  | nil => rfl
  | cons l rest ih =>
    rw [List.foldl_cons]
    have hstep : ProcessNmr.stepTab (false, m) l = (false, m) := by
      simp [ProcessNmr.stepTab, h l (List.mem_cons_self l rest)]
    rw [hstep]
    exact ih fun l' hl' => h l' (List.mem_cons_of_mem l hl')

/-- C2: in a tabular-format file, the value stored for residue `r`
under atom key `CA` is exactly the float of the 4th whitespace field of
the unique post-marker data line whose 2nd field parses to `r` and
whose 3rd field is `CA`; malformed lines (fewer than four fields or
failing `int`/`float` conversions) contribute nothing. -/
theorem tabular_parse_CA_value
    (pre p₁ p₂ : List Line) (mline dline : Line) (r : ℤ) (v : ℚ)
    (hpre : ∀ l ∈ pre, containsSub ProcessNmr.shiftMarker l = false)
    (hm : containsSub ProcessNmr.shiftMarker mline = true)
    (hd : ProcessNmr.writesKey dline = some (r, ProcessNmr.caKey, v))
    (huniq : ∀ l ∈ p₁ ++ p₂, ∀ v',
       ProcessNmr.writesKey l ≠ some (r, ProcessNmr.caKey, v')) :
    ProcessNmr.lookupAtom
      (ProcessNmr.parse_chemical_shifts (pre ++ mline :: (p₁ ++ dline :: p₂)))
      r ProcessNmr.caKey = some v
  ∧ (∀ (m : ProcessNmr.ShiftMap) (l : Line), ProcessNmr.writesKey l = none →
       ProcessNmr.stepTab (true, m) l = (true, m)) := by
  constructor
  · unfold ProcessNmr.parse_chemical_shifts
    rw [List.foldl_append, ProcessNmr.foldTab_before_marker pre hpre, List.foldl_cons]
    have hmstep : ProcessNmr.stepTab (false, ([] : ProcessNmr.ShiftMap)) mline
        = (true, ([] : ProcessNmr.ShiftMap)) := by
      simp [ProcessNmr.stepTab, hm]
    rw [hmstep, List.foldl_append, List.foldl_cons]
    have hsplit : p₁.foldl ProcessNmr.stepTab (true, ([] : ProcessNmr.ShiftMap))
        = (true, (p₁.foldl ProcessNmr.stepTab (true, ([] : ProcessNmr.ShiftMap))).2) := by
      rcases hfold : p₁.foldl ProcessNmr.stepTab (true, ([] : ProcessNmr.ShiftMap)) with ⟨b, m₁⟩
      have := ProcessNmr.foldTab_fst p₁ []
      rw [hfold] at this
      simp only at this
      rw [this]
    rw [hsplit, ProcessNmr.stepTab_true, hd]
    rw [ProcessNmr.foldTab_preserve p₂ r ProcessNmr.caKey
      (fun l hl => huniq l (List.mem_append_right p₁ hl))]
    exact ProcessNmr.lookupAtom_insertShift_self _ r ProcessNmr.caKey v
  · intro m l h
    rw [ProcessNmr.stepTab_true, h]

/-- C2 witness: a file with a marker line, a comment, a `CA` data line
for residue 4 with value 57, and a `CB` line for the same residue. -/
theorem tabular_parse_CA_value_witness :
    ProcessNmr.lookupAtom
      (ProcessNmr.parse_chemical_shifts
        (["data_block".data] ++ "loop_ _Atom_chem_shift.ID".data ::
          (["# comment".data] ++ "9 4 CA 57".data :: ["9 4 CB 31".data])))
      4 ProcessNmr.caKey = some (57 : ℚ) := by
  refine (tabular_parse_CA_value ["data_block".data] ["# comment".data]
    ["9 4 CB 31".data] "loop_ _Atom_chem_shift.ID".data "9 4 CA 57".data
    4 (57 : ℚ) ?_ (by decide) (by rfl) ?_).1
  · intro l hl
    rcases List.mem_singleton.mp hl with rfl
    decide
  · intro l hl v'
    rcases List.mem_append.mp hl with h1 | h2
    · rcases List.mem_singleton.mp h1 with rfl
      intro heq
      rw [show ProcessNmr.writesKey "# comment".data = none from by rfl] at heq
      cases heq
    · rcases List.mem_singleton.mp h2 with rfl
      intro heq
      rw [show ProcessNmr.writesKey "9 4 CB 31".data
          = some (4, "CB".data, (31 : ℚ)) from by rfl] at heq
      simp [ProcessNmr.caKey] at heq

/-!  Step lemmas for the summary parser. -/

theorem MainScript.summGo_cons_header (cur : Option MainScript.ChemicalShiftRecord)
    (l : Line) (rest : List Line) (hh : MainScript.isHeaderLine (trimL l) = true) :
    MainScript.summGo cur (l :: rest)
      = MainScript.summGo (some (MainScript.headerRec (trimL l))) rest := by
  simp [MainScript.summGo, hh]

theorem MainScript.summGo_cons_skip (cur : Option MainScript.ChemicalShiftRecord)
    (l : Line) (rest : List Line) (hh : MainScript.isHeaderLine (trimL l) = false)
    (ha : MainScript.aveMark.isPrefixOf (trimL l) = false) :
    MainScript.summGo cur (l :: rest) = MainScript.summGo cur rest := by
  simp [MainScript.summGo, hh, ha]

theorem MainScript.summGo_cons_ave_none (l : Line) (rest : List Line)
    (hh : MainScript.isHeaderLine (trimL l) = false)
    (ha : MainScript.aveMark.isPrefixOf (trimL l) = true) :
    MainScript.summGo none (l :: rest) = MainScript.summGo none rest := by
  simp [MainScript.summGo, hh, ha]

theorem MainScript.summGo_cons_ave_emit (r : MainScript.ChemicalShiftRecord)
    (l : Line) (rest : List Line)
    (hh : MainScript.isHeaderLine (trimL l) = false)
    (ha : MainScript.aveMark.isPrefixOf (trimL l) = true)
    (hb1 : (MainScript.findShift MainScript.cPat (trimL l)).isBad = false)
    (hb2 : (MainScript.findShift MainScript.caPat (trimL l)).isBad = false)
    (hb3 : (MainScript.findShift MainScript.cbPat (trimL l)).isBad = false) :
    MainScript.summGo (some r) (l :: rest)
      = MainScript.appCB
          (MainScript.appCA (MainScript.appC r (MainScript.findShift MainScript.cPat (trimL l)))
            (MainScript.findShift MainScript.caPat (trimL l)))
          (MainScript.findShift MainScript.cbPat (trimL l))
        :: MainScript.summGo none rest := by
  simp [MainScript.summGo, hh, ha, hb1, hb2, hb3]

theorem MainScript.summGo_cons_ave_badC (r : MainScript.ChemicalShiftRecord)
    (l : Line) (rest : List Line)
    (hh : MainScript.isHeaderLine (trimL l) = false)
    (ha : MainScript.aveMark.isPrefixOf (trimL l) = true)
    (hb1 : (MainScript.findShift MainScript.cPat (trimL l)).isBad = true) :
    MainScript.summGo (some r) (l :: rest) = [] := by
  simp [MainScript.summGo, hh, ha, hb1]

theorem MainScript.summGo_cons_ave_badCA (r : MainScript.ChemicalShiftRecord)
    (l : Line) (rest : List Line)
    (hh : MainScript.isHeaderLine (trimL l) = false)
    (ha : MainScript.aveMark.isPrefixOf (trimL l) = true)
    (hb1 : (MainScript.findShift MainScript.cPat (trimL l)).isBad = false)
    (hb2 : (MainScript.findShift MainScript.caPat (trimL l)).isBad = true) :
    MainScript.summGo (some r) (l :: rest) = [] := by
  simp [MainScript.summGo, hh, ha, hb1, hb2]

theorem MainScript.summGo_cons_ave_badCB (r : MainScript.ChemicalShiftRecord)
    (l : Line) (rest : List Line)
    (hh : MainScript.isHeaderLine (trimL l) = false)
    (ha : MainScript.aveMark.isPrefixOf (trimL l) = true)
    (hb1 : (MainScript.findShift MainScript.cPat (trimL l)).isBad = false)
    (hb2 : (MainScript.findShift MainScript.caPat (trimL l)).isBad = false)
    (hb3 : (MainScript.findShift MainScript.cbPat (trimL l)).isBad = true) :
    MainScript.summGo (some r) (l :: rest) = [] := by
  simp [MainScript.summGo, hh, ha, hb1, hb2, hb3]

theorem MainScript.appC_spec (r : MainScript.ChemicalShiftRecord) (f : MainScript.Found) :
    (MainScript.appC r f).residueId = r.residueId
  ∧ (MainScript.appC r f).residueType = r.residueType
  ∧ (MainScript.appC r f).caShift = r.caShift
  ∧ (MainScript.appC r f).cbShift = r.cbShift := by
  cases f <;> exact ⟨rfl, rfl, rfl, rfl⟩

theorem MainScript.appCA_spec (r : MainScript.ChemicalShiftRecord) (f : MainScript.Found) :
    (MainScript.appCA r f).residueId = r.residueId
  ∧ (MainScript.appCA r f).residueType = r.residueType
  ∧ (MainScript.appCA r f).cShift = r.cShift
  ∧ (MainScript.appCA r f).cbShift = r.cbShift := by
  cases f <;> exact ⟨rfl, rfl, rfl, rfl⟩

theorem MainScript.appCB_spec (r : MainScript.ChemicalShiftRecord) (f : MainScript.Found) :
    (MainScript.appCB r f).residueId = r.residueId
  ∧ (MainScript.appCB r f).residueType = r.residueType
  ∧ (MainScript.appCB r f).cShift = r.cShift
  ∧ (MainScript.appCB r f).caShift = r.caShift := by
  cases f <;> exact ⟨rfl, rfl, rfl, rfl⟩

/-- Invariant of the summary-parser loop: on a valid file every emitted
record has a populated shift field and carries the id and type of
either a header line of the remaining input or of the open residue
block. -/
theorem MainScript.summGo_mem (lines : List Line) :
    ∀ cur, MainScript.validSummary lines = true →
      ∀ rec ∈ MainScript.summGo cur lines,
        (rec.cShift ≠ none ∨ rec.caShift ≠ none ∨ rec.cbShift ≠ none)
      ∧ ((∃ l ∈ lines, MainScript.isHeaderLine (trimL l) = true
            ∧ rec.residueId = (MainScript.headerRec (trimL l)).residueId
            ∧ rec.residueType = (MainScript.headerRec (trimL l)).residueType)
         ∨ (∃ r, cur = some r ∧ rec.residueId = r.residueId
              ∧ rec.residueType = r.residueType)) := by
  induction lines with
  | nil =>
    intro cur _ rec hrec
    cases hrec
  | cons l rest ih =>
    intro cur hv rec hrec
    rw [MainScript.validSummary, List.all_cons, Bool.and_eq_true] at hv
    obtain ⟨hvl, hvrest⟩ := hv
    have hv' : MainScript.validSummary rest = true := hvrest
    by_cases hh : MainScript.isHeaderLine (trimL l) = true
    · rw [MainScript.summGo_cons_header cur l rest hh] at hrec
      obtain ⟨h1, h2⟩ := ih (some (MainScript.headerRec (trimL l))) hv' rec hrec
      refine ⟨h1, ?_⟩
      rcases h2 with ⟨l', hl', hp⟩ | ⟨r, hcur, hid, hty⟩
      · exact Or.inl ⟨l', List.mem_cons_of_mem l hl', hp⟩
      · refine Or.inl ⟨l, List.mem_cons_self l rest, hh, ?_, ?_⟩
        · rw [hid, Option.some_inj.mp hcur]
        · rw [hty, Option.some_inj.mp hcur]
    · have hh' : MainScript.isHeaderLine (trimL l) = false := Bool.eq_false_iff.mpr hh
      by_cases ha : MainScript.aveMark.isPrefixOf (trimL l) = true
      · have hval : MainScript.validAveLine (trimL l) = true := by
          rw [ha] at hvl
          simpa using hvl
        rw [MainScript.validAveLine, Bool.and_eq_true, Bool.and_eq_true,
          Bool.and_eq_true, Bool.or_eq_true, Bool.or_eq_true] at hval
        obtain ⟨⟨⟨hb1, hb2⟩, hb3⟩, hor⟩ := hval
        have hb1' : (MainScript.findShift MainScript.cPat (trimL l)).isBad = false := by
          simpa using hb1
        have hb2' : (MainScript.findShift MainScript.caPat (trimL l)).isBad = false := by
          simpa using hb2
        have hb3' : (MainScript.findShift MainScript.cbPat (trimL l)).isBad = false := by
          simpa using hb3
        cases cur with
        | none =>
          rw [MainScript.summGo_cons_ave_none l rest hh' ha] at hrec
          obtain ⟨h1, h2⟩ := ih none hv' rec hrec
          refine ⟨h1, ?_⟩
          rcases h2 with ⟨l', hl', hp⟩ | ⟨r, hcur, _⟩
          · exact Or.inl ⟨l', List.mem_cons_of_mem l hl', hp⟩
          · cases hcur
        | some r =>
          rw [MainScript.summGo_cons_ave_emit r l rest hh' ha hb1' hb2' hb3'] at hrec
          rcases List.mem_cons.mp hrec with rfl | hrec'
          · constructor
            · rcases hor with (hC | hCA) | hCB
              · rcases hfc : MainScript.findShift MainScript.cPat (trimL l) with _ | v | _ <;>
                  rw [hfc] at hC <;> try simp [MainScript.Found.isVal] at hC
                refine Or.inl ?_
                rw [(MainScript.appCB_spec _ _).2.2.1, (MainScript.appCA_spec _ _).2.2.1]
                simp [MainScript.appC]
              · rcases hfc : MainScript.findShift MainScript.caPat (trimL l) with _ | v | _ <;>
                  rw [hfc] at hCA <;> try simp [MainScript.Found.isVal] at hCA
                refine Or.inr (Or.inl ?_)
                rw [(MainScript.appCB_spec _ _).2.2.2]
                simp [MainScript.appCA]
              · rcases hfc : MainScript.findShift MainScript.cbPat (trimL l) with _ | v | _ <;>
                  rw [hfc] at hCB <;> try simp [MainScript.Found.isVal] at hCB
                refine Or.inr (Or.inr ?_)
                simp [MainScript.appCB]
            · refine Or.inr ⟨r, rfl, ?_, ?_⟩
              · rw [(MainScript.appCB_spec _ _).1, (MainScript.appCA_spec _ _).1,
                  (MainScript.appC_spec _ _).1]
              · rw [(MainScript.appCB_spec _ _).2.1, (MainScript.appCA_spec _ _).2.1,
                  (MainScript.appC_spec _ _).2.1]
          · obtain ⟨h1, h2⟩ := ih none hv' rec hrec'
            refine ⟨h1, ?_⟩
            rcases h2 with ⟨l', hl', hp⟩ | ⟨r', hcur, _⟩
            · exact Or.inl ⟨l', List.mem_cons_of_mem l hl', hp⟩
            · cases hcur
      · have ha' : MainScript.aveMark.isPrefixOf (trimL l) = false := Bool.eq_false_iff.mpr ha
        rw [MainScript.summGo_cons_skip cur l rest hh' ha'] at hrec
        obtain ⟨h1, h2⟩ := ih cur hv' rec hrec
        refine ⟨h1, ?_⟩
        rcases h2 with ⟨l', hl', hp⟩ | hc
        · exact Or.inl ⟨l', List.mem_cons_of_mem l hl', hp⟩
        · exact Or.inr hc

/-- Lines that are neither headers nor shift-values lines are skipped
without changing the parser state. -/
theorem MainScript.summGo_skip_all (mid : List Line)
    (hmid : ∀ x ∈ mid, MainScript.isHeaderLine (trimL x) = false
       ∧ MainScript.aveMark.isPrefixOf (trimL x) = false) :
    ∀ (post : List Line) (cur : Option MainScript.ChemicalShiftRecord),
      MainScript.summGo cur (mid ++ post) = MainScript.summGo cur post := by
  induction mid with
  | nil => intro post cur; rfl
  | cons x mid' ih =>
    intro post cur
    rw [List.cons_append,
      MainScript.summGo_cons_skip cur x _ (hmid x (List.mem_cons_self x mid')).1
        (hmid x (List.mem_cons_self x mid')).2]
    exact ih (fun y hy => hmid y (List.mem_cons_of_mem x hy)) post cur

/-- A residue block whose body contains no shift-values line, closed by
the end of file or by another header, contributes nothing. -/
theorem MainScript.summGo_block (h : Line) (mid post : List Line)
    (hh : MainScript.isHeaderLine (trimL h) = true)
    (hmid : ∀ x ∈ mid, MainScript.isHeaderLine (trimL x) = false
       ∧ MainScript.aveMark.isPrefixOf (trimL x) = false)
    (hpost : post = [] ∨ ∃ h2 p2, post = h2 :: p2
       ∧ MainScript.isHeaderLine (trimL h2) = true) :
    ∀ (pre : List Line) (cur : Option MainScript.ChemicalShiftRecord),
      MainScript.summGo cur (pre ++ h :: (mid ++ post))
        = MainScript.summGo cur (pre ++ post) := by
  intro pre
  induction pre with
  | nil =>
    intro cur
    rw [List.nil_append, List.nil_append, MainScript.summGo_cons_header cur h _ hh,
      MainScript.summGo_skip_all mid hmid post _]
    rcases hpost with rfl | ⟨h2, p2, rfl, hh2⟩
    · rfl
    · rw [MainScript.summGo_cons_header _ h2 p2 hh2,
        MainScript.summGo_cons_header cur h2 p2 hh2]
  | cons p pre' ih =>
    intro cur
    rw [List.cons_append, List.cons_append]
    by_cases hhp : MainScript.isHeaderLine (trimL p) = true
    · rw [MainScript.summGo_cons_header cur p _ hhp, MainScript.summGo_cons_header cur p _ hhp]
      exact ih _
    · have hhp' : MainScript.isHeaderLine (trimL p) = false := Bool.eq_false_iff.mpr hhp
      by_cases hap : MainScript.aveMark.isPrefixOf (trimL p) = true
      · cases cur with
        | none =>
          rw [MainScript.summGo_cons_ave_none p _ hhp' hap,
            MainScript.summGo_cons_ave_none p _ hhp' hap]
          exact ih none
        | some r =>
          by_cases hb1 : (MainScript.findShift MainScript.cPat (trimL p)).isBad = true
          · rw [MainScript.summGo_cons_ave_badC r p _ hhp' hap hb1,
              MainScript.summGo_cons_ave_badC r p _ hhp' hap hb1]
          · have hb1' : (MainScript.findShift MainScript.cPat (trimL p)).isBad = false :=
              Bool.eq_false_iff.mpr hb1
            by_cases hb2 : (MainScript.findShift MainScript.caPat (trimL p)).isBad = true
            · rw [MainScript.summGo_cons_ave_badCA r p _ hhp' hap hb1' hb2,
                MainScript.summGo_cons_ave_badCA r p _ hhp' hap hb1' hb2]
            · have hb2' : (MainScript.findShift MainScript.caPat (trimL p)).isBad = false :=
                Bool.eq_false_iff.mpr hb2
              by_cases hb3 : (MainScript.findShift MainScript.cbPat (trimL p)).isBad = true
              · rw [MainScript.summGo_cons_ave_badCB r p _ hhp' hap hb1' hb2' hb3,
                  MainScript.summGo_cons_ave_badCB r p _ hhp' hap hb1' hb2' hb3]
              · have hb3' : (MainScript.findShift MainScript.cbPat (trimL p)).isBad = false :=
                  Bool.eq_false_iff.mpr hb3
                rw [MainScript.summGo_cons_ave_emit r p _ hhp' hap hb1' hb2' hb3',
                  MainScript.summGo_cons_ave_emit r p _ hhp' hap hb1' hb2' hb3', ih none]
      · have hap' : MainScript.aveMark.isPrefixOf (trimL p) = false := Bool.eq_false_iff.mpr hap
        rw [MainScript.summGo_cons_skip cur p _ hhp' hap',
          MainScript.summGo_cons_skip cur p _ hhp' hap']
        exact ih cur

/-- C1: on a valid summary-format file every emitted record carries a
residue id and type parsed from a header line and has at least one of
the three shift fields populated; and a residue block never followed by
a shift-values line (its body holds neither headers nor shift lines,
and it ends at end of file or at the next header) produces no record. -/
theorem parse_chemical_shifts_summary_spec :
    (∀ lines : List Line, MainScript.validSummary lines = true →
       ∀ rec ∈ MainScript.parse_chemical_shifts lines,
         (∃ l ∈ lines, MainScript.isHeaderLine (trimL l) = true
             ∧ rec.residueId = (MainScript.headerRec (trimL l)).residueId
             ∧ rec.residueType = (MainScript.headerRec (trimL l)).residueType)
         ∧ (rec.cShift ≠ none ∨ rec.caShift ≠ none ∨ rec.cbShift ≠ none))
  ∧ (∀ (h : Line) (pre mid post : List Line),
       MainScript.isHeaderLine (trimL h) = true →
       (∀ x ∈ mid, MainScript.isHeaderLine (trimL x) = false
          ∧ MainScript.aveMark.isPrefixOf (trimL x) = false) →
       (post = [] ∨ ∃ h2 p2, post = h2 :: p2
          ∧ MainScript.isHeaderLine (trimL h2) = true) →
       MainScript.parse_chemical_shifts (pre ++ h :: (mid ++ post))
         = MainScript.parse_chemical_shifts (pre ++ post)) := by
  constructor
  · intro lines hv rec hrec
    obtain ⟨h1, h2⟩ := MainScript.summGo_mem lines none hv rec hrec
    refine ⟨?_, h1⟩
    rcases h2 with hL | ⟨r, hcur, _⟩
    · exact hL
    · cases hcur
  · intro h pre mid post hh hmid hpost
    exact MainScript.summGo_block h mid post hh hmid hpost pre none

/-- C1 witness: a two-line valid file emits one fully-derived record,
and a header block followed only by a junk line vanishes. -/
theorem parse_chemical_shifts_summary_spec_witness :
    ((∃ l ∈ ["R1 LYS".data, "Ave C Shift Values>> C :: 176, CA :: 56, CB :: 30".data],
        MainScript.isHeaderLine (trimL l) = true
        ∧ (⟨'R', 1, some 176, some 56, some 30⟩ :
            MainScript.ChemicalShiftRecord).residueId = (MainScript.headerRec (trimL l)).residueId
        ∧ (⟨'R', 1, some 176, some 56, some 30⟩ :
            MainScript.ChemicalShiftRecord).residueType = (MainScript.headerRec (trimL l)).residueType)
     ∧ ((⟨'R', 1, some 176, some 56, some 30⟩ : MainScript.ChemicalShiftRecord).cShift ≠ none
        ∨ (⟨'R', 1, some 176, some 56, some 30⟩ : MainScript.ChemicalShiftRecord).caShift ≠ none
        ∨ (⟨'R', 1, some 176, some 56, some 30⟩ : MainScript.ChemicalShiftRecord).cbShift ≠ none))
  ∧ MainScript.parse_chemical_shifts (["B7".data] ++ "A1".data :: (["junk".data] ++ []))
      = MainScript.parse_chemical_shifts (["B7".data] ++ []) := by
  constructor
  · refine parse_chemical_shifts_summary_spec.1
      ["R1 LYS".data, "Ave C Shift Values>> C :: 176, CA :: 56, CB :: 30".data]
      (by rfl) _ ?_
    show (⟨'R', 1, some 176, some 56, some 30⟩ : MainScript.ChemicalShiftRecord)
      ∈ [(⟨'R', 1, some 176, some 56, some 30⟩ : MainScript.ChemicalShiftRecord)]
    exact List.mem_singleton.mpr rfl
  · refine parse_chemical_shifts_summary_spec.2 "A1".data ["B7".data] ["junk".data] []
      (by rfl) ?_ (Or.inl rfl)
    intro x hx
    rcases List.mem_singleton.mp hx with rfl
    exact ⟨rfl, rfl⟩

/-!  Lemmas for the structure parser. -/

theorem intRange_mem (a b x : ℤ) : x ∈ intRange a b ↔ a ≤ x ∧ x ≤ b := by
  unfold intRange
  rw [List.mem_map]
  constructor
  · rintro ⟨i, hi, rfl⟩
    rw [List.mem_range] at hi
    omega
  · rintro ⟨h1, h2⟩
    exact ⟨(x - a).toNat, List.mem_range.mpr (by omega), by omega⟩

theorem foldl_ssSet (v : String) (ks : List ℤ) :
    ∀ (m : SSMap) (x : ℤ),
      (ks.foldl (fun m' k => ssSet m' k v) m) x = if x ∈ ks then some v else m x := by
  induction ks with
  | nil => intro m x; simp
  | cons k ks ih =>
    intro m x
    rw [List.foldl_cons, ih]
    by_cases hx : x ∈ ks
    · simp [hx]
    · by_cases hk : x = k
      · simp [hx, hk, ssSet]
      · simp [hx, hk, ssSet, List.mem_cons]

theorem assignRange_apply (m : SSMap) (a b : ℤ) (v : String) (x : ℤ) :
    assignRange m a b v x = if a ≤ x ∧ x ≤ b then some v else m x := by
  rw [assignRange, foldl_ssSet]
  by_cases h : a ≤ x ∧ x ≤ b
  · rw [if_pos ((intRange_mem a b x).mpr h), if_pos h]
  · rw [if_neg (fun hc => h ((intRange_mem a b x).mp hc)), if_neg h]

theorem stepSS_char (m m' : SSMap) (l : Line) (hs : stepSS m l = some m') :
    (ssSpan l = none → m' = m)
  ∧ (∀ a b c, ssSpan l = some (a, b, c) → m' = assignRange m a b c) := by
  unfold stepSS at hs
  unfold ssSpan
  by_cases h1 : "HELIX".data.isPrefixOf l = true
  · rcases ha : parseSliceInt l 21 25 with _ | av <;>
      rcases hb : parseSliceInt l 33 37 with _ | bv <;>
      simp [h1, ha, hb] at hs ⊢
    · exact hs.symm
  · have h1' : "HELIX".data.isPrefixOf l = false := Bool.eq_false_iff.mpr h1
    by_cases h2 : "SHEET".data.isPrefixOf l = true
    · rcases ha : parseSliceInt l 22 26 with _ | av <;>
        rcases hb : parseSliceInt l 33 37 with _ | bv <;>
        simp [h1', h2, ha, hb] at hs ⊢
      · exact hs.symm
    · have h2' : "SHEET".data.isPrefixOf l = false := Bool.eq_false_iff.mpr h2
      simp [h1', h2'] at hs ⊢
      exact hs.symm

theorem buildSS_post_preserve (id : ℤ) (post : List Line) :
    ∀ (m₁ m : SSMap), List.foldlM stepSS m₁ post = some m →
      (∀ l' ∈ post, ¬ covers l' id) → m id = m₁ id := by
  induction post with
  | nil =>
    intro m₁ m hf _
    have hm : some m₁ = some m := hf
    rw [Option.some_inj.mp hm]
  | cons l' rest ih =>
    intro m₁ m hf hnc
    rw [List.foldlM_cons] at hf
    rcases hstep : stepSS m₁ l' with _ | m₂
    · rw [hstep] at hf
      cases hf
    · rw [hstep] at hf
      have hf' : List.foldlM stepSS m₂ rest = some m := hf
      rw [ih m₂ m hf' (fun x hx => hnc x (List.mem_cons_of_mem l' hx))]
      obtain ⟨hc1, hc2⟩ := stepSS_char m₁ m₂ l' hstep
      rcases hsp : ssSpan l' with _ | ⟨a, b, c⟩
      · rw [hc1 hsp]
      · rw [hc2 a b c hsp, assignRange_apply]
        exact if_neg fun hab =>
          hnc l' (List.mem_cons_self l' rest) ⟨a, b, c, hsp, hab.1, hab.2⟩

/-- C3: after pass 1, a residue id inside a HELIX range maps to "H"
and inside a SHEET range to "E" unless a later range reassigns it
(last-write-wins); and every emitted standard amino-acid residue whose
id is absent from the map receives structure code "C". -/
theorem parse_secondary_structures_spec (pre post : List Line) (l : Line)
    (residues : List PdbResidue) (m : SSMap) (id : ℤ)
    (hbuild : buildSS (pre ++ l :: post) = some m)
    (hlater : ∀ l' ∈ post, ¬ covers l' id) :
    (∀ a b, ssSpan l = some (a, b, "H") → a ≤ id → id ≤ b → m id = some "H")
  ∧ (∀ a b, ssSpan l = some (a, b, "E") → a ≤ id → id ≤ b → m id = some "E")
  ∧ (∀ rec ∈ parse_secondary_structures (pre ++ l :: post) residues,
       m rec.residueId = none → rec.secStruct = "C") := by
  have hbuild0 := hbuild
  unfold buildSS at hbuild
  rw [List.foldlM_append] at hbuild
  rcases hpre : List.foldlM stepSS (fun _ => none) pre with _ | m₀
  · rw [hpre] at hbuild
    cases hbuild
  · rw [hpre] at hbuild
    have hb1 : List.foldlM stepSS m₀ (l :: post) = some m := hbuild
    rw [List.foldlM_cons] at hb1
    rcases hstep : stepSS m₀ l with _ | m₁
    · rw [hstep] at hb1
      cases hb1
    · rw [hstep] at hb1
      have hb2 : List.foldlM stepSS m₁ post = some m := hb1
      have hpres := buildSS_post_preserve id post m₁ m hb2 hlater
      obtain ⟨hc1, hc2⟩ := stepSS_char m₀ m₁ l hstep
      refine ⟨?_, ?_, ?_⟩
      · intro a b hsp h1 h2
        rw [hpres, hc2 a b "H" hsp, assignRange_apply, if_pos ⟨h1, h2⟩]
      · intro a b hsp h1 h2
        rw [hpres, hc2 a b "E" hsp, assignRange_apply, if_pos ⟨h1, h2⟩]
      · intro rec hrec hmnone
        unfold parse_secondary_structures at hrec
        rw [hbuild0] at hrec
        obtain ⟨r, hr, hfr⟩ := List.mem_filterMap.mp hrec
        by_cases hstd : r.isStdAA = true
        · rw [if_pos hstd] at hfr
          obtain rfl := Option.some_inj.mp hfr
          simp only at hmnone ⊢
          rw [hmnone]
          rfl
        · rw [if_neg hstd] at hfr
          cases hfr

/-- C3 witness: a single HELIX line covering residues 2 through 5 maps
residue 3 to "H". -/
theorem parse_secondary_structures_spec_witness :
    assignRange (fun _ => none) 2 5 "H" 3 = some "H" := by
  refine (parse_secondary_structures_spec [] []
    "HELIX                   2           5".data []
    (assignRange (fun _ => none) 2 5 "H") 3 (by rfl) ?_).1 2 5 (by rfl)
    (by decide) (by decide)
  intro l' hl'
  cases hl'
